import Mathlib

/-!
Shallow embedding of the `Random` library (`src/Random.h`).

The header concatenates three revisions of the library.  The claims under
study cite the revision defining `class Random` with
`static inline std::default_random_engine _engine;` (Random.h:49-155) and
`class SharedRandom : public Random` (Random.h:157-258); the later revision
(Random.h:258-387) keys the engine per thread (`thread_local`) instead of
per process, and the earliest revision (src/unnamed/part_000) is a
singleton.  In every revision the engine is shared between instances: a
`Random` object carries no generator state of its own, so the embedding
threads a single global engine state (a natural number) through all
operations, and constructing an instance is an operation on that state.

Engine model: `std::default_random_engine` is `minstd_rand0` on libstdc++,
the Lehmer generator x := 16807 * x mod 2147483647; `operator()` advances
the state and returns it, and seeding stores `seed mod m` (normalising 0 to
1, per the `linear_congruential_engine` seeding rule).

Distribution model: `std::uniform_int_distribution<>(a, b)` is modelled by
its contract: one engine draw, offset by the engine minimum (1) and reduced
into the closed interval `[a, b]` by a Euclidean remainder.
`std::uniform_real_distribution<>(a, b)` is modelled as one canonical draw
`e / 2147483647 ∈ [0, 1)` scaled affinely onto `[a, b)`; reals are embedded
as rationals.
-/

namespace DyikotRandom

/-- One step of the `minstd_rand0` engine; the returned value is the new
state, as for `linear_congruential_engine::operator()`. -/
def engineNext (g : ℕ) : ℕ := 16807 * g % 2147483647

/-- The `linear_congruential_engine::seed` rule for `minstd_rand0`
(increment 0): a seed congruent to 0 is replaced by 1. -/
def engineSeed (s : ℕ) : ℕ := if s % 2147483647 = 0 then 1 else s % 2147483647

/-- Value of `std::uniform_int_distribution<>(a, b)` on one engine draw
`e`: the draw, offset by the engine minimum 1, reduced into `[a, b]`. -/
def uniformIntDraw (a b : ℤ) (e : ℕ) : ℤ := a + ((e : ℤ) - 1) % (b - a + 1)

/-- Value of `std::uniform_real_distribution<>(a, b)` on one engine draw
`e`: the canonical value `e / 2147483647` scaled onto `[a, b)`. -/
def uniformRealDraw (a b : ℚ) (e : ℕ) : ℚ := a + (b - a) * (e : ℚ) / 2147483647

/-- Conversion of an `unsigned int` value (`u < 2^32`) to a 32-bit signed
`int`, as C++ performs on the arguments of
`std::uniform_int_distribution<>` (two's-complement wrap-around). -/
def intOfUInt (u : ℕ) : ℤ := if u < 2 ^ 31 then (u : ℤ) else (u : ℤ) - 2 ^ 32

/-- Truncation of a real value on assignment to an integer element
(C++ float-to-integral conversion rounds toward zero). -/
def truncQ (v : ℚ) : ℤ := if 0 ≤ v then ⌊v⌋ else ⌈v⌉

/-- Numeric kind of the elements of an `ArithmeticRange`
(Random.h:45-47): integral or floating-point. -/
inductive NumKind where
  | int : NumKind
  | real : NumKind
deriving DecidableEq

/-- Assignment `item = v` into an element of the given numeric kind:
integral elements truncate the drawn value, real elements store it
exactly.  Element storage is uniformly `ℚ`. -/
def NumKind.assign : NumKind → ℚ → ℚ
  | NumKind.int, v => ((truncQ v : ℤ) : ℚ)
  | NumKind.real, v => v

/-- Constructor `Random::Random(unsigned int seed)` (Random.h:60-63):
`_engine.seed(seed)`.  The engine being a single `static inline` member
(Random.h:52), construction overwrites the shared state `g` for every
instance; the instance itself holds nothing. -/
def Random.construct (seed : ℕ) (_g : ℕ) : ℕ := engineSeed seed

/-- Method `int Random::NextInt(int min, int max)` (Random.h:81-84):
`return std::uniform_int_distribution<>(min, max)(_engine)`. -/
def Random.NextInt (min max : ℤ) (g : ℕ) : ℤ × ℕ :=
  let g' := engineNext g
  (uniformIntDraw min max g', g')

/-- Method `unsigned int Random::Next(unsigned int max)` (Random.h:70-73):
`return std::uniform_int_distribution<>(0, max)(_engine)`.  The
distribution's value type is `int`, so `max` undergoes unsigned-to-signed
conversion. -/
def Random.Next (max : ℕ) (g : ℕ) : ℤ × ℕ :=
  Random.NextInt 0 (intOfUInt max) g

/-- Method `double Random::NextDouble(double min, double max)`
(Random.h:92-95): `return std::uniform_real_distribution<>(min, max)(_engine)`. -/
def Random.NextDouble (min max : ℚ) (g : ℕ) : ℚ × ℕ :=
  let g' := engineNext g
  (uniformRealDraw min max g', g')

/-- Method `double Random::NextDouble()` (Random.h:101-104).  Its body is
`NextDouble(0.0, 1.0);` with no `return`: the engine advances but the
computed value is discarded and the function yields an indeterminate
value, embedded as `none`. -/
def Random.NextDouble0 (g : ℕ) : Option ℚ × ℕ :=
  (none, (Random.NextDouble 0 1 g).2)

/-- Method `void Random::Fill(ArithmeticRange auto&& range, int min, int max)`
(Random.h:112-118): every element, of either numeric kind, is assigned
`std::uniform_int_distribution<>(min, max)(_engine)`. -/
def Random.FillIntArgs (k : NumKind) (l : List ℚ) (min max : ℤ) (g : ℕ) :
    List ℚ × ℕ :=
  match l with
  | [] => ([], g)
  | _ :: xs =>
    let p := Random.NextInt min max g
    let r := Random.FillIntArgs k xs min max p.2
    (k.assign ((p.1 : ℤ) : ℚ) :: r.1, r.2)

/-- Method `void Random::Fill(ArithmeticRange auto&& range, double min, double max)`
(Random.h:126-132): every element, of either numeric kind, is assigned
`std::uniform_real_distribution<>(min, max)(_engine)`. -/
def Random.FillRealArgs (k : NumKind) (l : List ℚ) (min max : ℚ) (g : ℕ) :
    List ℚ × ℕ :=
  match l with
  | [] => ([], g)
  | _ :: xs =>
    let p := Random.NextDouble min max g
    let r := Random.FillRealArgs k xs min max p.2
    (k.assign p.1 :: r.1, r.2)

/-- Successive values of `n` calls to `Random::NextInt(min, max)`,
with the final engine state. -/
def intDraws (n : ℕ) (min max : ℤ) (g : ℕ) : List ℤ × ℕ :=
  match n with
  | 0 => ([], g)
  | n + 1 =>
    let p := Random.NextInt min max g
    let r := intDraws n min max p.2
    (p.1 :: r.1, r.2)

/-- Successive values of `n` calls to `Random::NextDouble(min, max)`,
with the final engine state. -/
def realDraws (n : ℕ) (min max : ℚ) (g : ℕ) : List ℚ × ℕ :=
  match n with
  | 0 => ([], g)
  | n + 1 =>
    let p := Random.NextDouble min max g
    let r := realDraws n min max p.2
    (p.1 :: r.1, r.2)

/-- Outputs of a sequence of `Random::NextInt` calls with the given
`(min, max)` argument pairs, with the final engine state. -/
def runNextInts (calls : List (ℤ × ℤ)) (g : ℕ) : List ℤ × ℕ :=
  match calls with
  | [] => ([], g)
  | c :: rest =>
    let p := Random.NextInt c.1 c.2 g
    let r := runNextInts rest p.2
    (p.1 :: r.1, r.2)

/-- Exchange of the elements at positions `i` and `j`, as performed by
`std::swap` on two iterator dereferences inside `std::shuffle`; out of
bounds positions leave the sequence unchanged (`std::shuffle` only forms
in-bounds iterators). -/
def listSwap (l : List α) (i j : ℕ) : List α :=
  if h : i < l.length ∧ j < l.length then
    (l.set i (l.get ⟨j, h.2⟩)).set j (l.get ⟨i, h.1⟩)
  else l

/-- Loop of `std::shuffle` (invoked by `std::ranges::shuffle`): for the
current index `t = i + 1` running from `n - 1` down to `1`, draw
`j ∈ [0, t]` with `uniform_int_distribution(0, t)` and swap positions `t`
and `j`. -/
def shuffleAux (l : List α) (g : ℕ) : ℕ → List α × ℕ
  | 0 => (l, g)
  | i + 1 =>
    let p := Random.NextInt 0 ((i : ℤ) + 1) g
    shuffleAux (listSwap l (i + 1) p.1.toNat) p.2 i

/-- Method `void Random::Shuffle(std::ranges::random_access_range auto&& range)`
(Random.h:151-154): `std::ranges::shuffle(range, _engine)`. -/
def Random.Shuffle (l : List α) (g : ℕ) : List α × ℕ :=
  shuffleAux l g (l.length - 1)

/-- Primitive actions appearing in the body of a `SharedRandom` method:
acquiring `_mutex`, releasing it, and the delegated `Random::` operation. -/
inductive Ev where
  | acquire : Ev
  | release : Ev
  | delegate : Ev
deriving DecidableEq

/-- Body of `SharedRandom::Next` (Random.h:175-179): a `std::lock_guard`
around the delegated call (acquired on entry, released when the guard is
destroyed on any exit path). -/
def SharedRandom.traceNext : List Ev := [Ev.acquire, Ev.delegate, Ev.release]

/-- Body of `SharedRandom::NextInt` (Random.h:187-191). -/
def SharedRandom.traceNextInt : List Ev := [Ev.acquire, Ev.delegate, Ev.release]

/-- Body of `SharedRandom::NextDouble(double, double)` (Random.h:199-203). -/
def SharedRandom.traceNextDouble2 : List Ev := [Ev.acquire, Ev.delegate, Ev.release]

/-- Body of `SharedRandom::NextDouble()` (Random.h:209-212): the body is
the single statement `Random::NextDouble(0.0, 1.0);` — no `lock_guard` is
constructed (and the delegated value is not returned). -/
def SharedRandom.traceNextDouble0 : List Ev := [Ev.delegate]

/-- Body of `SharedRandom::Fill(range, int, int)` (Random.h:220-224). -/
def SharedRandom.traceFillInt : List Ev := [Ev.acquire, Ev.delegate, Ev.release]

/-- Body of `SharedRandom::Fill(range, double, double)` (Random.h:232-236). -/
def SharedRandom.traceFillReal : List Ev := [Ev.acquire, Ev.delegate, Ev.release]

/-- Body of `SharedRandom::Fill(range)` (Random.h:242-246). -/
def SharedRandom.traceFillUnit : List Ev := [Ev.acquire, Ev.delegate, Ev.release]

/-- Body of `SharedRandom::Shuffle` (Random.h:253-257). -/
def SharedRandom.traceShuffle : List Ev := [Ev.acquire, Ev.delegate, Ev.release]

/-- The bodies of all public `SharedRandom` operations, in declaration
order (Random.h:157-258). -/
def SharedRandom.allTraces : List (List Ev) :=
  [SharedRandom.traceNext, SharedRandom.traceNextInt,
   SharedRandom.traceNextDouble2, SharedRandom.traceNextDouble0,
   SharedRandom.traceFillInt, SharedRandom.traceFillReal,
   SharedRandom.traceFillUnit, SharedRandom.traceShuffle]

/-- Predicate: a method body forms a single critical section — the mutex
is acquired first, released last, and no other lock traffic occurs in
between. -/
def lockedBody (t : List Ev) : Prop :=
  ∃ mid, t = Ev.acquire :: mid ++ [Ev.release] ∧
    Ev.acquire ∉ mid ∧ Ev.release ∉ mid

instance (t : List Ev) : Decidable (lockedBody t) :=
  match t with
  | [] => isFalse (by rintro ⟨mid, h, -, -⟩; cases h)
  | e :: rest =>
    decidable_of_iff
      (e = Ev.acquire ∧ rest.getLast? = some Ev.release ∧
        Ev.acquire ∉ rest.dropLast ∧ Ev.release ∉ rest.dropLast)
      (by
        constructor
        · rintro ⟨he, hlast, ha, hr⟩
          refine ⟨rest.dropLast, ?_, ha, hr⟩
          rcases List.eq_nil_or_concat rest with rfl | ⟨ys, y, hy⟩
          · cases hlast
          · rw [List.concat_eq_append] at hy
            subst hy
            rw [List.getLast?_concat] at hlast
            cases hlast
            simp [he]
        · rintro ⟨mid, h, ha, hr⟩
          cases h
          simp_all [List.getLast?_concat, List.dropLast_concat])

/-- Error signalled by the selection operations on an empty source. -/
inductive RandomError where
  | invalidArgument : RandomError
deriving DecidableEq

/-- Draws `n` elements of `l` independently, each by one
`uniform_int_distribution(0, l.length - 1)` index draw (sampling with
replacement); `x` is a default for the (unused) out-of-range case. -/
def drawItems (l : List α) (x : α) : ℕ → ℕ → List α × ℕ
  | 0, g => ([], g)
  | n + 1, g =>
    let p := Random.NextInt 0 ((l.length : ℤ) - 1) g
    let r := drawItems l x n p.2
    (l.getD p.1.toNat x :: r.1, r.2)

/-- Modelled from the spec: `GetItem` appears in the README examples but
its definition is not under `src/`.  Spec §4.1: returns one element chosen
uniformly at random from a non-empty randomly-indexable sequence; fails
with an invalid-argument error when the sequence is empty. -/
def Random.GetItem (l : List α) (g : ℕ) : Except RandomError (α × ℕ) :=
  match l with
  | [] => Except.error RandomError.invalidArgument
  | x :: xs =>
    let p := Random.NextInt 0 ((xs.length : ℤ)) g
    Except.ok ((x :: xs).getD p.1.toNat x, p.2)

/-- Modelled from the spec: `GetItems(sequence, count)` is not under
`src/`.  Spec §4.1: returns `count` elements drawn independently with
replacement from the non-empty source; fails with invalid-argument when
the source is empty. -/
def Random.GetItems (l : List α) (count : ℕ) (g : ℕ) :
    Except RandomError (List α × ℕ) :=
  match l with
  | [] => Except.error RandomError.invalidArgument
  | x :: xs => Except.ok (drawItems (x :: xs) x count g)

/-- Modelled from the spec: `GetItems(source, destination)` is not under
`src/`.  Spec §4.1: overwrites the destination with
`length(destination)` draws with replacement from the non-empty source;
signals invalid-argument, before mutating the destination, when the
source is empty.  The returned triple is the outcome, the destination
after the call, and the engine state after the call. -/
def Random.GetItemsInto (src dst : List α) (g : ℕ) :
    Except RandomError Unit × List α × ℕ :=
  match src with
  | [] => (Except.error RandomError.invalidArgument, dst, g)
  | x :: xs =>
    let r := drawItems (x :: xs) x dst.length g
    (Except.ok (), r.1, r.2)

/-! Helper lemmas. -/

theorem engineNext_lt (g : ℕ) : engineNext g < 2147483647 :=
  Nat.mod_lt _ (by norm_num)

theorem uniformIntDraw_mem (a b : ℤ) (h : a ≤ b) (e : ℕ) :
    a ≤ uniformIntDraw a b e ∧ uniformIntDraw a b e ≤ b := by
  unfold uniformIntDraw
  have hn : 0 < b - a + 1 := by omega
  have h1 : 0 ≤ ((e : ℤ) - 1) % (b - a + 1) := Int.emod_nonneg _ (by omega)
  have h2 : ((e : ℤ) - 1) % (b - a + 1) < b - a + 1 := Int.emod_lt_of_pos _ hn
  omega

theorem uniformRealDraw_mem (a b : ℚ) (h : a ≤ b) (e : ℕ)
    (he : e ≤ 2147483647) :
    a ≤ uniformRealDraw a b e ∧ uniformRealDraw a b e ≤ b := by
  unfold uniformRealDraw
  have h0 : (0 : ℚ) ≤ (e : ℚ) := by positivity
  have h1 : (e : ℚ) ≤ 2147483647 := by exact_mod_cast he
  constructor
  · have hp : 0 ≤ (b - a) * (e : ℚ) / 2147483647 :=
      div_nonneg (mul_nonneg (by linarith) h0) (by norm_num)
    linarith
  · have h2 : (b - a) * (e : ℚ) / 2147483647 ≤ b - a := by
      rw [div_le_iff₀ (by norm_num : (0 : ℚ) < 2147483647)]
      have := mul_le_mul_of_nonneg_left h1 (show (0 : ℚ) ≤ b - a by linarith)
      linarith
    linarith

theorem set_get_self : ∀ (l : List α) (n : ℕ) (h : n < l.length),
    l.set n (l.get ⟨n, h⟩) = l
  | _ :: _, 0, _ => rfl
  | x :: xs, n + 1, h =>
    congrArg (x :: ·) (set_get_self xs n (by simpa using h))

theorem count_set_eq [DecidableEq α] (z b : α) (l : List α) :
    ∀ (n : ℕ) (h : n < l.length),
      (l.set n b).count z + (if l.get ⟨n, h⟩ = z then 1 else 0)
        = l.count z + (if b = z then 1 else 0) := by
  induction l with
  | nil => intro n h; simp at h
  | cons x xs ih =>
    intro n h
    cases n with
    | zero =>
      simp only [List.set_cons_zero, List.get, List.count_cons, beq_iff_eq]
      by_cases hx : x = z <;> by_cases hb : b = z <;> simp [hx, hb]
    | succ n =>
      simp only [List.set_cons_succ, List.get, List.count_cons, beq_iff_eq]
      have hsucc := ih n (by simpa using h)
      simp only [List.get_eq_getElem] at hsucc
      by_cases hx : x = z <;> simp [hx] <;> omega

theorem listSwap_perm (l : List α) (i j : ℕ) : (listSwap l i j).Perm l := by
  letI := Classical.decEq α
  unfold listSwap
  split
  case isTrue h =>
    by_cases hij : i = j
    · subst hij
      rw [List.set_set, set_get_self]
    · rw [List.perm_iff_count]
      intro z
      have len1 : j < (l.set i (l.get ⟨j, h.2⟩)).length := by
        simpa using h.2
      have e1 := count_set_eq z (l.get ⟨i, h.1⟩)
        (l.set i (l.get ⟨j, h.2⟩)) j len1
      have e2 := count_set_eq z (l.get ⟨j, h.2⟩) l i h.1
      rw [List.get_set, if_neg hij] at e1
      omega
  case isFalse h => exact List.Perm.refl l

theorem shuffleAux_perm (k : ℕ) :
    ∀ (l : List α) (g : ℕ), ((shuffleAux l g k).1).Perm l := by
  induction k with
  | zero => intro l g; exact List.Perm.refl l
  | succ i ih =>
    intro l g
    exact (ih _ _).trans (listSwap_perm l (i + 1) _)

theorem assign_intCast (k : NumKind) (v : ℤ) :
    k.assign ((v : ℤ) : ℚ) = (v : ℚ) := by
  cases k with
  | int =>
    simp only [NumKind.assign, truncQ]
    by_cases hv : (0 : ℚ) ≤ ((v : ℤ) : ℚ)
    · rw [if_pos hv, Int.floor_intCast]
    · rw [if_neg hv, Int.ceil_intCast]
  | real => rfl

theorem intDraws_length (a b : ℤ) :
    ∀ (n : ℕ) (g : ℕ), (intDraws n a b g).1.length = n := by
  intro n
  induction n with
  | zero => intro g; rfl
  | succ n ih => intro g; simp [intDraws, ih]

theorem realDraws_length (a b : ℚ) :
    ∀ (n : ℕ) (g : ℕ), (realDraws n a b g).1.length = n := by
  intro n
  induction n with
  | zero => intro g; rfl
  | succ n ih => intro g; simp [realDraws, ih]

theorem fillIntArgs_spec (k : NumKind) (a b : ℤ) (l : List ℚ) :
    ∀ g, Random.FillIntArgs k l a b g
        = ((intDraws l.length a b g).1.map fun v => k.assign ((v : ℤ) : ℚ),
           (intDraws l.length a b g).2) := by
  induction l with
  | nil => intro g; rfl
  | cons x xs ih =>
    intro g
    simp [Random.FillIntArgs, intDraws, ih]

theorem fillRealArgs_spec (k : NumKind) (a b : ℚ) (l : List ℚ) :
    ∀ g, Random.FillRealArgs k l a b g
        = ((realDraws l.length a b g).1.map k.assign,
           (realDraws l.length a b g).2) := by
  induction l with
  | nil => intro g; rfl
  | cons x xs ih =>
    intro g
    simp [Random.FillRealArgs, realDraws, ih]

theorem fillIntArgs_mem (k : NumKind) (a b : ℤ) (h : a ≤ b) (l : List ℚ) :
    ∀ (g : ℕ) (x : ℚ), x ∈ (Random.FillIntArgs k l a b g).1 →
      (a : ℚ) ≤ x ∧ x ≤ (b : ℚ) := by
  induction l with
  | nil => intro g x hx; simp [Random.FillIntArgs] at hx
  | cons y ys ih =>
    intro g x hx
    simp only [Random.FillIntArgs, Random.NextInt, List.mem_cons] at hx
    rcases hx with rfl | hx
    · rw [assign_intCast]
      have hb := uniformIntDraw_mem a b h (engineNext g)
      exact ⟨by exact_mod_cast hb.1, by exact_mod_cast hb.2⟩
    · exact ih _ _ hx

theorem fillRealArgs_mem (a b : ℚ) (h : a ≤ b) (l : List ℚ) :
    ∀ (g : ℕ) (x : ℚ), x ∈ (Random.FillRealArgs NumKind.real l a b g).1 →
      a ≤ x ∧ x ≤ b := by
  induction l with
  | nil => intro g x hx; simp [Random.FillRealArgs] at hx
  | cons y ys ih =>
    intro g x hx
    simp only [Random.FillRealArgs, Random.NextDouble, NumKind.assign,
      List.mem_cons] at hx
    rcases hx with rfl | hx
    · exact uniformRealDraw_mem a b h _ (engineNext_lt g).le
    · exact ih _ _ hx

/-! Claim theorems. -/

/-- Claim C1 counterexample: with the `static inline` engine shared by all
instances, two `Random` objects both constructed with seed 12345 and then
each asked for ten `NextInt(1, 100)` draws do not agree pairwise — the
second object's draws continue the one stream the first object's draws
advanced. -/
theorem two_instances_same_seed_differ :
    (runNextInts (List.replicate 10 ((1 : ℤ), (100 : ℤ)))
        (Random.construct 12345 (Random.construct 12345 0))).1
      ≠ (runNextInts (List.replicate 10 ((1 : ℤ), (100 : ℤ)))
          (runNextInts (List.replicate 10 ((1 : ℤ), (100 : ℤ)))
            (Random.construct 12345 (Random.construct 12345 0))).2).1 := by
  decide

/-- Claim C1 (amended): an output sequence is determined by the seed and
the calls alone.  Seeding (constructing an instance) resets the shared
engine regardless of its prior history, so a seeded construction followed
by a fixed call sequence always replays the same outputs; in particular
seeding 12345, drawing, reseeding 12345, and drawing again yields
pairwise-identical sequences. -/
theorem seeded_replay_deterministic (s : ℕ) (calls : List (ℤ × ℤ)) (g h : ℕ) :
    (runNextInts calls (Random.construct s g)).1
        = (runNextInts calls (Random.construct s h)).1
    ∧ (runNextInts calls
          (Random.construct s (runNextInts calls (Random.construct s g)).2)).1
        = (runNextInts calls (Random.construct s g)).1 :=
  ⟨rfl, rfl⟩

/-- Claim C2 (code bug): `Random::NextDouble()` (Random.h:101-104)
advances the engine exactly as `NextDouble(0.0, 1.0)` does but its body
has no `return`, so the computed value is discarded and the caller
receives an indeterminate value; the value the doc comment promises — the
`NextDouble(0.0, 1.0)` draw — always lies in [0, 1]. -/
theorem nextDouble_missing_return (g : ℕ) :
    (Random.NextDouble0 g).1 = none
    ∧ (Random.NextDouble0 g).2 = (Random.NextDouble 0 1 g).2
    ∧ 0 ≤ (Random.NextDouble 0 1 g).1 ∧ (Random.NextDouble 0 1 g).1 ≤ 1 :=
  ⟨rfl, rfl,
    (uniformRealDraw_mem 0 1 (by norm_num) _ (engineNext_lt g).le).1,
    (uniformRealDraw_mem 0 1 (by norm_num) _ (engineNext_lt g).le).2⟩

/-- Claim C3: for min ≤ max, `Random::NextInt(min, max)` always returns a
value in the closed interval [min, max], and each of the two endpoints is
attained at some engine state. -/
theorem nextInt_closed_interval (min max : ℤ) (h : min ≤ max) :
    (∀ g, min ≤ (Random.NextInt min max g).1
        ∧ (Random.NextInt min max g).1 ≤ max)
    ∧ (∃ g, (Random.NextInt min max g).1 = min)
    ∧ (∃ g, (Random.NextInt min max g).1 = max) := by
  refine ⟨fun g => uniformIntDraw_mem min max h _, ⟨1407677000, ?_⟩, ⟨0, ?_⟩⟩
  · show uniformIntDraw min max (engineNext 1407677000) = min
    have he : engineNext 1407677000 = 1 := by decide
    rw [he]
    norm_num [uniformIntDraw]
  · show uniformIntDraw min max (engineNext 0) = max
    have he : engineNext 0 = 0 := rfl
    rw [he]
    unfold uniformIntDraw
    simp only [Nat.cast_zero]
    have h1 : (max - min) % (max - min + 1) = ((0 : ℤ) - 1) % (max - min + 1) := by
      have h2 : max - min = (0 : ℤ) - 1 + (max - min + 1) * 1 := by ring
      nth_rewrite 1 [h2]
      rw [Int.add_mul_emod_self_left]
    rw [← h1, Int.emod_eq_of_lt (by omega) (by omega)]
    omega

/-- Witness for the claim C3 theorem at (min, max) = (1, 100). -/
theorem nextInt_closed_interval_witness :
    (1 : ℤ) ≤ 100
    ∧ ((∀ g, 1 ≤ (Random.NextInt 1 100 g).1
          ∧ (Random.NextInt 1 100 g).1 ≤ 100)
      ∧ (∃ g, (Random.NextInt 1 100 g).1 = 1)
      ∧ (∃ g, (Random.NextInt 1 100 g).1 = 100)) :=
  ⟨by norm_num, nextInt_closed_interval 1 100 (by norm_num)⟩

/-- Claim C4 counterexample: constructing a second `Random` (seed 2)
between two draws of a first instance (seed 1) changes the first
instance's next draw, because construction reseeds the shared static
engine. -/
theorem construction_perturbs_prior_instance :
    (Random.NextInt 1 100 (Random.NextInt 1 100 (Random.construct 1 0)).2).1
      ≠ (Random.NextInt 1 100
          (Random.construct 2
            (Random.NextInt 1 100 (Random.construct 1 0)).2)).1 := by
  decide

/-- Claim C4 (amended): the generator state is one shared engine, not a
per-instance member; every construction reseeds it in place, so the state
an instance draws from after any construction is `engineSeed` of the new
seed, independent of all earlier history. -/
theorem construct_reseeds_shared_engine (s g : ℕ) (a b : ℤ) :
    Random.construct s g = engineSeed s
    ∧ Random.NextInt a b (Random.construct s g)
        = Random.NextInt a b (engineSeed s) :=
  ⟨rfl, rfl⟩

/-- Claim C5: `Random::Shuffle` preserves the multiset of elements, and
sequences of length 0 or 1 come back exactly unchanged (engine state
included). -/
theorem shuffle_preserves_multiset {α : Type} (l : List α) (g : ℕ) (x : α) :
    ((Random.Shuffle l g).1 : Multiset α) = (l : Multiset α)
    ∧ Random.Shuffle ([] : List α) g = ([], g)
    ∧ Random.Shuffle [x] g = ([x], g) :=
  ⟨Multiset.coe_eq_coe.mpr (shuffleAux_perm _ l g), rfl, rfl⟩

/-- Claim C6 counterexample: filling an integral-element sequence through
the real-argument overload can truncate elements out of [min, max]: with
min = max = 1/2 the draw is exactly 1/2, stored into the integral element
as 0, which is below the lower bound 1/2. -/
theorem fill_trunc_out_of_range :
    (1 : ℚ) / 2 ≤ 1 / 2
    ∧ (Random.FillRealArgs NumKind.int [(0 : ℚ)] (1 / 2) (1 / 2) 12345).1
        = [(0 : ℚ)]
    ∧ ¬ ((1 : ℚ) / 2 ≤ (0 : ℚ)) := by
  refine ⟨le_refl _, ?_, by norm_num⟩
  have hf : ⌊(1 / 2 : ℚ)⌋ = 0 := by
    rw [Int.floor_eq_iff]
    norm_num
  simp only [Random.FillRealArgs, Random.NextDouble, uniformRealDraw,
    NumKind.assign, truncQ]
  norm_num [hf]

/-- Claim C6 (amended): both `Fill` overloads always leave the sequence's
length unchanged; every element lands in [min, max] under the
int-argument overload for either element kind, and under the
real-argument overload for real-kind elements.  (A real-argument fill of
an integral-element sequence truncates and may leave [min, max].) -/
theorem fill_length_and_range (k : NumKind) (l : List ℚ) (a b : ℤ)
    (aq bq : ℚ) (h : a ≤ b) (hq : aq ≤ bq) (g : ℕ) :
    (Random.FillIntArgs k l a b g).1.length = l.length
    ∧ (∀ x ∈ (Random.FillIntArgs k l a b g).1, (a : ℚ) ≤ x ∧ x ≤ (b : ℚ))
    ∧ (Random.FillRealArgs k l aq bq g).1.length = l.length
    ∧ (∀ x ∈ (Random.FillRealArgs NumKind.real l aq bq g).1,
        aq ≤ x ∧ x ≤ bq) := by
  refine ⟨?_, fun x hx => fillIntArgs_mem k a b h l g x hx, ?_,
    fun x hx => fillRealArgs_mem aq bq hq l g x hx⟩
  · rw [fillIntArgs_spec]
    simp [intDraws_length]
  · rw [fillRealArgs_spec]
    simp [realDraws_length]

/-- Witness for the claim C6 theorem at k = int, l = [0, 1/2],
(a, b) = (-3, 7), (aq, bq) = (0, 1), g = 42. -/
theorem fill_length_and_range_witness :
    (-3 : ℤ) ≤ 7 ∧ (0 : ℚ) ≤ 1
    ∧ ((Random.FillIntArgs NumKind.int [(0 : ℚ), 1 / 2] (-3) 7 42).1.length
          = ([(0 : ℚ), 1 / 2] : List ℚ).length
      ∧ (∀ x ∈ (Random.FillIntArgs NumKind.int [(0 : ℚ), 1 / 2] (-3) 7 42).1,
          ((-3 : ℤ) : ℚ) ≤ x ∧ x ≤ ((7 : ℤ) : ℚ))
      ∧ (Random.FillRealArgs NumKind.int [(0 : ℚ), 1 / 2] 0 1 42).1.length
          = ([(0 : ℚ), 1 / 2] : List ℚ).length
      ∧ (∀ x ∈ (Random.FillRealArgs NumKind.real [(0 : ℚ), 1 / 2] 0 1 42).1,
          (0 : ℚ) ≤ x ∧ x ≤ 1)) :=
  ⟨by norm_num, by norm_num,
    fill_length_and_range NumKind.int [(0 : ℚ), 1 / 2] (-3) 7 0 1
      (by norm_num) (by norm_num) 42⟩

/-- Claim C7 counterexample: a real-element sequence filled through the
int-argument overload receives the integer draw (4 from state 12345), not
the `NextDouble` draw from that same state that element-kind dispatch
would produce. -/
theorem fill_real_elements_get_int_draw :
    (Random.FillIntArgs NumKind.real [(0 : ℚ)] 0 9 12345).1
      ≠ [(Random.NextDouble 0 9 12345).1] := by
  have h1 : (Random.FillIntArgs NumKind.real [(0 : ℚ)] 0 9 12345).1
      = [(4 : ℚ)] := by
    have he : engineNext 12345 = 207482415 := by norm_num [engineNext]
    simp only [Random.FillIntArgs, Random.NextInt, NumKind.assign, he]
    norm_num [uniformIntDraw]
  have h2 : (Random.NextDouble 0 9 12345).1 = 1867341735 / 2147483647 := by
    have he : engineNext 12345 = 207482415 := by norm_num [engineNext]
    simp only [Random.NextDouble, he]
    norm_num [uniformRealDraw]
  rw [h1, h2]
  intro hc
  rw [List.cons.injEq] at hc
  norm_num at hc

/-- Claim C7 (amended): `Fill` dispatches on the min/max argument
overload, not on the element's numeric kind — the int overload writes the
`NextInt` draw stream and the real overload writes the `NextDouble` draw
stream, for either element kind; the element kind only governs the
conversion applied to each drawn value on assignment. -/
theorem fill_dispatch_by_argument_types (k : NumKind) (l : List ℚ)
    (a b : ℤ) (aq bq : ℚ) (g : ℕ) :
    (Random.FillIntArgs k l a b g).1
        = ((intDraws l.length a b g).1.map fun v => k.assign ((v : ℤ) : ℚ))
    ∧ (Random.FillRealArgs k l aq bq g).1
        = ((realDraws l.length aq bq g).1.map k.assign) := by
  constructor
  · rw [fillIntArgs_spec]
  · rw [fillRealArgs_spec]

/-- Claim C8 (code bug): each public `SharedRandom` method except the
zero-argument `NextDouble()` runs as one critical section — mutex
acquired on entry, delegated call inside, mutex released on exit — while
`NextDouble()` (Random.h:209-212) delegates without ever touching the
mutex. -/
theorem sharedRandom_lock_traces :
    lockedBody SharedRandom.traceNext
    ∧ lockedBody SharedRandom.traceNextInt
    ∧ lockedBody SharedRandom.traceNextDouble2
    ∧ lockedBody SharedRandom.traceFillInt
    ∧ lockedBody SharedRandom.traceFillReal
    ∧ lockedBody SharedRandom.traceFillUnit
    ∧ lockedBody SharedRandom.traceShuffle
    ∧ ¬ lockedBody SharedRandom.traceNextDouble0 := by
  decide

/-- Claim C9: on an empty source, `GetItem` and both `GetItems` variants
signal invalid-argument, and the destination form returns the
caller-owned destination (and the engine state) exactly unchanged. -/
theorem getItem_empty_signals (α : Type) (dst : List α) (n g : ℕ) :
    Random.GetItem ([] : List α) g = Except.error RandomError.invalidArgument
    ∧ Random.GetItems ([] : List α) n g
        = Except.error RandomError.invalidArgument
    ∧ Random.GetItemsInto ([] : List α) dst g
        = (Except.error RandomError.invalidArgument, dst, g) :=
  ⟨rfl, rfl, rfl⟩

/-- Claim C10: `Random::Next(max)` builds its distribution with `int`
bounds, converting the unsigned `max`; for max up to 2^31 - 1 the result
is guaranteed to lie in [0, max], and for any larger max (below 2^32) the
converted upper bound is negative, i.e. below the lower bound 0. -/
theorem next_unsigned_conversion (max : ℕ) (h : max < 2 ^ 32) :
    (max ≤ 2 ^ 31 - 1 →
      ∀ g, 0 ≤ (Random.Next max g).1 ∧ (Random.Next max g).1 ≤ (max : ℤ))
    ∧ (2 ^ 31 - 1 < max → intOfUInt max < 0) := by
  constructor
  · intro hm g
    have hint : intOfUInt max = (max : ℤ) := by
      unfold intOfUInt
      rw [if_pos (by omega)]
    have hb := uniformIntDraw_mem 0 (max : ℤ)
      (Int.ofNat_nonneg max) (engineNext g)
    show 0 ≤ uniformIntDraw 0 (intOfUInt max) (engineNext g)
        ∧ uniformIntDraw 0 (intOfUInt max) (engineNext g) ≤ (max : ℤ)
    rw [hint]
    exact hb
  · intro hm
    unfold intOfUInt
    rw [if_neg (by omega)]
    have hc : (max : ℤ) < 2 ^ 32 := by exact_mod_cast h
    omega

/-- Witness for the claim C10 theorem at max = 3000000000 > 2^31 - 1. -/
theorem next_unsigned_conversion_witness :
    (3000000000 : ℕ) < 2 ^ 32 ∧ intOfUInt 3000000000 < 0 :=
  ⟨by norm_num,
    (next_unsigned_conversion 3000000000 (by norm_num)).2 (by norm_num)⟩

end DyikotRandom
